import Mathlib

/- Verification of the planning and estimation core of the Housework Queue
   application (source: `src/App.jsx`).

   Modelling conventions:
   * Calendar dates are modelled as integer day numbers: `addDaysISO` becomes
     integer addition and `daysBetweenISO a b` becomes `b - a`, matching the
     whole-day arithmetic of the source (the spec restricts itself to local
     calendar dates, with no time of day).
   * JavaScript numbers are modelled as `ℚ` (exact arithmetic); `Math.round`
     is Mathlib's `round`, which is the same half-up rule `⌊x + 1/2⌋`.
   * A JavaScript value that may fail numeric coercion is `Option ℚ`
     (`none` = `NaN` / not coercible); `x || d` on numbers is `jsOr`.
   * The string-level date handling of the task editor is modelled
     character by character in a separate section, since the validity of the
     text typed by the user is exactly what is at stake there.
   * Parsed JSON backup files are modelled by the inductive type `JVal`. -/

namespace HQ

/-- A completion record, the `{dateISO, actualMin}` entries stored in `task.history`
    (App.jsx line 477). -/
structure HRec where
  dateISO : Int
  actualMin : Int
deriving DecidableEq

/-- A task record of the app state: `id, name, freqDays, lastDoneISO, estMin, history`. -/
structure Task where
  id : String
  name : String
  freqDays : Int
  lastDoneISO : Int
  estMin : Int
  history : List HRec
deriving DecidableEq

/-- Source `addDaysISO` (App.jsx 39-47) under the day-number model of dates. -/
def addDaysISO (iso days : Int) : Int := iso + days

/-- Source `daysBetweenISO` (App.jsx 49-57): `b - a` in whole days. -/
def daysBetweenISO (aISO bISO : Int) : Int := bISO - aISO

/-- Source `clampInt` (App.jsx 59-63); `none` models a non-finite `Number(n)`,
    which falls back to the minimum. -/
def clampInt (n : Option ℚ) (lo hi : Int) : Int :=
  match n with
  | none => lo
  | some x => max lo (min hi (round x))

/-- Source `computeDueISO` (App.jsx 91-93). -/
def computeDueISO (t : Task) : Int := addDaysISO t.lastDoneISO (max 1 t.freqDays)

/-- Source `isOverdue` (App.jsx 95-98). -/
def isOverdue (t : Task) (nowISO : Int) : Bool :=
  decide (0 < daysBetweenISO (computeDueISO t) nowISO)

/-- The lateness ratio computed by `urgencyScore` (App.jsx 107-109):
    `Math.max(0, daysSinceDone) / Math.max(1, freqDays)`. -/
def latenessRatio (t : Task) (nowISO : Int) : ℚ :=
  max 0 ((daysBetweenISO t.lastDoneISO nowISO : Int) : ℚ) / max 1 (t.freqDays : ℚ)

/-- The branch condition of `urgencyScore`: the "due" branch runs when
    `ratio < 1` fails (App.jsx 111-113). -/
def dueBranch (t : Task) (nowISO : Int) : Prop :=
  ¬ latenessRatio t nowISO < 1

/-- Source `urgencyScore` (App.jsx 106-114). -/
def urgencyScore (t : Task) (nowISO : Int) : ℚ :=
  if latenessRatio t nowISO < 1 then 2/100 * latenessRatio t nowISO
  else (latenessRatio t nowISO - 1) * (latenessRatio t nowISO - 1) +
       5/100 * latenessRatio t nowISO

/-- JavaScript `x || d` on numbers: `NaN` (here `none`) and `0` fall back to `d`. -/
def jsOr (x : Option ℚ) (d : ℚ) : ℚ :=
  match x with
  | none => d
  | some q => if q = 0 then d else q

/-- The defaulted old estimate `Math.max(1, Number(oldEst) || 15)` of
    `ewmaUpdate` (App.jsx 167). -/
def ewmaOldV (oldEst : Option ℚ) : ℚ := max 1 (jsOr oldEst 15)

/-- The defaulted actual minutes `Math.max(1, Number(actualMin) || oldV)` of
    `ewmaUpdate` (App.jsx 168). -/
def ewmaActV (oldEst actualMin : Option ℚ) : ℚ :=
  max 1 (jsOr actualMin (ewmaOldV oldEst))

/-- Source `ewmaUpdate` (App.jsx 166-170). -/
def ewmaUpdate (oldEst actualMin : Option ℚ) (alpha : ℚ) : Int :=
  max 1 (round (ewmaOldV oldEst * (1 - alpha) + ewmaActV oldEst actualMin * alpha))

/-- The inline estimate expression `Math.max(1, t.estMin || 15)` (App.jsx 129). -/
def estOf (t : Task) : Int := max 1 (if t.estMin = 0 then 15 else t.estMin)

/-- One entry of the `scored` array built by `buildPlan` (App.jsx 125-132). -/
structure ScoredItem where
  task : Task
  score : ℚ
  est : Int
  overdue : Bool
  dueISO : Int

/-- The scoring map of `buildPlan` (App.jsx 125-132). -/
def scoreOne (nowISO : Int) (t : Task) : ScoredItem :=
  ⟨t, urgencyScore t nowISO, estOf t, isOverdue t nowISO, computeDueISO t⟩

/-- The scored task array of `buildPlan` before sorting. -/
def scoreItems (tasks : List Task) (nowISO : Int) : List ScoredItem :=
  tasks.map (scoreOne nowISO)

/-- The sort comparator of `buildPlan` (App.jsx 133-137), rendered as the
    "`a` may precede `b`" relation (`cmp a b ≤ 0`): overdue entries first,
    then higher score first, then earlier due date first. -/
def planLE (a b : ScoredItem) : Bool :=
  if a.overdue ≠ b.overdue then a.overdue
  else if a.score ≠ b.score then decide (b.score < a.score)
  else decide (a.dueISO ≤ b.dueISO)

/-- The `scored` array of `buildPlan` after its deterministic sort. -/
def sortedScored (tasks : List Task) (nowISO : Int) : List ScoredItem :=
  (scoreItems tasks nowISO).mergeSort planLE

/-- The greedy fill loop of `buildPlan` (App.jsx 139-147): returns the picked
    items together with the final running total. -/
def planFill (budgetMin : Int) : List ScoredItem → Int → List ScoredItem × Int
  | [], total => ([], total)
  | item :: rest, total =>
    if budgetMin ≤ total then ([], total)
    else if budgetMin < item.est + total then planFill budgetMin rest total
    else (item :: (planFill budgetMin rest (total + item.est)).1,
          (planFill budgetMin rest (total + item.est)).2)

/-- The result record of `buildPlan`: `{pickedIds, totalEstMin}`. -/
structure PlanResult where
  pickedIds : List String
  totalEstMin : Int

/-- Source `buildPlan` (App.jsx 124-156), including the degenerate fallback
    that force-includes the single most urgent task when nothing fits. -/
def buildPlan (tasks : List Task) (nowISO : Int) (budgetMin : Int) : PlanResult :=
  match (planFill budgetMin (sortedScored tasks nowISO) 0).1, sortedScored tasks nowISO with
  | [], s0 :: _ => ⟨[s0.task.id], max 1 s0.est⟩
  | picked, _ =>
      ⟨picked.map fun i => i.task.id, (planFill budgetMin (sortedScored tasks nowISO) 0).2⟩

/-- The `todayPlan` record `{dateISO, pickedIds, completedIds}` (App.jsx 388). -/
structure Plan where
  dateISO : Int
  pickedIds : List String
  completedIds : List String
deriving DecidableEq

/-- The persisted app state: the task list plus the possibly absent daily plan. -/
structure AppState where
  tasks : List Task
  todayPlan : Option Plan
deriving DecidableEq

/-- Insertion-order deduplication: `Array.from(new Set(xs))` keeps the first
    occurrence of each element, in order (App.jsx 493-501). -/
def jsSetOf : List String → List String
  | [] => []
  | x :: xs => x :: (jsSetOf xs).filter (fun y => decide (y ≠ x))

/-- The history update of `confirmDone` (App.jsx 476-478): prepend a record,
    then keep the 20 most recent entries. -/
def histUpdate (nowISO actual : Int) (h : List HRec) : List HRec :=
  (⟨nowISO, actual⟩ :: h).take 20

/-- The per-task update of `confirmDone` (App.jsx 472-486): the matching task
    gets today as `lastDoneISO`, the smoothed estimate, and the new history. -/
def completeTask (id : String) (actual nowISO : Int) (t : Task) : Task :=
  if t.id = id then
    { t with lastDoneISO := nowISO,
             estMin := ewmaUpdate (some (t.estMin : ℚ)) (some (actual : ℚ)) (3/10),
             history := histUpdate nowISO actual t.history }
  else t

/-- Source `confirmDone` (App.jsx 465-508): clamp the entered minutes, update
    the completed task's `lastDoneISO`, estimate and history, and, when a plan
    for today exists, add the id to its `completedIds`. -/
def confirmDone (id : String) (actualMin : Option ℚ) (nowISO : Int) (s : AppState) : AppState :=
  match s.todayPlan with
  | some tp =>
      if tp.dateISO = nowISO then
        { tasks := s.tasks.map (completeTask id (clampInt actualMin 1 240) nowISO),
          todayPlan := some { tp with completedIds := jsSetOf (tp.completedIds ++ [id]) } }
      else { tasks := s.tasks.map (completeTask id (clampInt actualMin 1 240) nowISO),
             todayPlan := s.todayPlan }
  | none => { tasks := s.tasks.map (completeTask id (clampInt actualMin 1 240) nowISO),
              todayPlan := none }

/-- The `existing?.dateISO === nowISO` test of `ensureTodayPlan` (App.jsx 414). -/
def planIsForToday (s : AppState) (nowISO : Int) : Bool :=
  match s.todayPlan with
  | some tp => tp.dateISO == nowISO
  | none => false

/-- Source `ensureTodayPlan` (App.jsx 411-429). -/
def ensureTodayPlan (forceRegenerate : Bool) (nowISO budgetMin : Int) (s : AppState) : AppState :=
  if !forceRegenerate && planIsForToday s nowISO then s
  else { s with todayPlan := some ⟨nowISO, (buildPlan s.tasks nowISO budgetMin).pickedIds, []⟩ }

/-- Source `upsertTask` (App.jsx 515-524): replace the task with the matching
    id, or append; the plan is kept as is. -/
def upsertTask (u : Task) (s : AppState) : AppState :=
  if s.tasks.any (fun t => t.id == u.id) then
    { s with tasks := s.tasks.map fun t => if t.id = u.id then u else t }
  else { s with tasks := s.tasks ++ [u] }

/-- Source `deleteTask` (App.jsx 526-542): drop the task and purge its id from
    both membership lists of any existing plan. -/
def deleteTask (id : String) (s : AppState) : AppState :=
  { tasks := s.tasks.filter fun t => decide (t.id ≠ id),
    todayPlan := s.todayPlan.map fun tp =>
      { tp with pickedIds := tp.pickedIds.filter (fun x => decide (x ≠ id)),
                completedIds := tp.completedIds.filter (fun x => decide (x ≠ id)) } }

/-- Source `importTasksReplaceList` (App.jsx 544-557): an empty parse is
    reported and leaves the state alone; otherwise the task list is replaced
    and the plan is discarded. -/
def importTasksReplaceList (parsed : List Task) (s : AppState) : AppState :=
  if parsed = [] then s
  else { tasks := parsed, todayPlan := none }

/-- Repeated `confirmDone` events against a fixed current date. -/
def markCompleteMany (nowISO : Int) (steps : List (String × Option ℚ)) (s : AppState) : AppState :=
  steps.foldl (fun st p => confirmDone p.1 p.2 nowISO st) s

/-- The state reached by `ensureTodayPlan(false)` followed by a sequence of
    completions, all on the same day. -/
def lockedRun (s0 : AppState) (nowISO budgetMin : Int)
    (steps : List (String × Option ℚ)) : AppState :=
  markCompleteMany nowISO steps (ensureTodayPlan false nowISO budgetMin s0)

/-- States reachable by the user-facing operations exactly as the code runs
    them: `confirmDone` may target any existing task (the Done button is
    offered on every task), and restore accepts any task list and any plan
    record (the code validates neither). -/
inductive ReachableU : AppState → Prop where
  | init : ReachableU ⟨[], none⟩
  | ensure (force : Bool) (nowISO budgetMin : Int) {s : AppState} :
      ReachableU s → ReachableU (ensureTodayPlan force nowISO budgetMin s)
  | done (id : String) (a : Option ℚ) (nowISO : Int) {s : AppState} :
      ReachableU s → (∃ t ∈ s.tasks, t.id = id) →
      ReachableU (confirmDone id a nowISO s)
  | edit (u : Task) {s : AppState} : ReachableU s → ReachableU (upsertTask u s)
  | del (id : String) {s : AppState} : ReachableU s → ReachableU (deleteTask id s)
  | importRows (parsed : List Task) {s : AppState} :
      ReachableU s → ReachableU (importTasksReplaceList parsed s)
  | restoreLegacy (ts : List Task) {s : AppState} :
      ReachableU s → ReachableU ⟨ts, none⟩
  | restoreV2 (ts : List Task) (p : Option Plan) {s : AppState} :
      ReachableU s → ReachableU ⟨ts, p⟩

/-- States reachable when completion events are restricted to tasks picked in
    today's plan and restored plans already satisfy `completedIds ⊆ pickedIds`. -/
inductive ReachableG : AppState → Prop where
  | init : ReachableG ⟨[], none⟩
  | ensure (force : Bool) (nowISO budgetMin : Int) {s : AppState} :
      ReachableG s → ReachableG (ensureTodayPlan force nowISO budgetMin s)
  | done (id : String) (a : Option ℚ) (nowISO : Int) {s : AppState} :
      ReachableG s → (∃ t ∈ s.tasks, t.id = id) →
      (∀ tp, s.todayPlan = some tp → tp.dateISO = nowISO → id ∈ tp.pickedIds) →
      ReachableG (confirmDone id a nowISO s)
  | edit (u : Task) {s : AppState} : ReachableG s → ReachableG (upsertTask u s)
  | del (id : String) {s : AppState} : ReachableG s → ReachableG (deleteTask id s)
  | importRows (parsed : List Task) {s : AppState} :
      ReachableG s → ReachableG (importTasksReplaceList parsed s)
  | restoreLegacy (ts : List Task) {s : AppState} :
      ReachableG s → ReachableG ⟨ts, none⟩
  | restoreV2 (ts : List Task) (p : Option Plan) {s : AppState} :
      ReachableG s → (∀ pl, p = some pl → pl.completedIds ⊆ pl.pickedIds) →
      ReachableG ⟨ts, p⟩

/-- The spec's DailyPlan invariant, read on an app state. -/
def planInv (s : AppState) : Prop :=
  ∀ tp, s.todayPlan = some tp → tp.completedIds ⊆ tp.pickedIds

/-- Repeated completions of a single task, each entry being
    `(today, clamped actual minutes)`, applied to its history list. -/
def applyCompletions : List (Int × Int) → List HRec → List HRec
  | [], h => h
  | c :: rest, h => applyCompletions rest (histUpdate c.1 c.2 h)

/- String-level date handling of the task editor. Here the text the user typed
   is the object of study, so dates are modelled as genuine strings. -/

/-- A JavaScript-whitespace test for `String.prototype.trim`. -/
def jsWhite (c : Char) : Bool :=
  (c == ' ') || (c == '\t') || (c == '\n') || (c == '\r')

/-- JavaScript `trim`, modelled on the character list. -/
def jsTrim (s : String) : String :=
  String.mk (((s.toList.dropWhile jsWhite).reverse.dropWhile jsWhite).reverse)

/-- The regular expression `^\d{4}-\d{2}-\d{2}$` (App.jsx 28 and 940). -/
def isoShape (s : String) : Bool :=
  match s.toList with
  | [a, b, c, d, h1, e, f, h2, g, k] =>
      a.isDigit && b.isDigit && c.isDigit && d.isDigit && (h1 == '-') &&
      e.isDigit && f.isDigit && (h2 == '-') && g.isDigit && k.isDigit
  | _ => false

/-- The match of `^(\d{1,2})/(\d{1,2})/(\d{4})$` (App.jsx 30), returning the
    three digit groups. -/
def matchUS (cs : List Char) : Option (List Char × List Char × List Char) :=
  let m := cs.takeWhile Char.isDigit
  let rest := cs.dropWhile Char.isDigit
  if m.length < 1 || 2 < m.length then none
  else
    match rest with
    | '/' :: rest2 =>
      let d := rest2.takeWhile Char.isDigit
      let rest3 := rest2.dropWhile Char.isDigit
      if d.length < 1 || 2 < d.length then none
      else
        match rest3 with
        | '/' :: rest4 =>
          let y := rest4.takeWhile Char.isDigit
          let rest5 := rest4.dropWhile Char.isDigit
          if y.length == 4 && rest5.isEmpty then some (m, d, y) else none
        | _ => none
    | _ => none

/-- `String(m).padStart(2, "0")` for one- or two-digit groups (App.jsx 33-34). -/
def pad2 (cs : List Char) : List Char :=
  if cs.length == 1 then '0' :: cs else cs

/-- Source `parseUSDateToISO` (App.jsx 23-37): accepts `YYYY-MM-DD` verbatim or
    `M/D/YYYY` / `MM/DD/YYYY` normalized to `YYYY-MM-DD`; anything else is `null`. -/
def parseUSDateToISO (s : String) : Option String :=
  if jsTrim s == "" then none
  else if isoShape (jsTrim s) then some (jsTrim s)
  else
    match matchUS (jsTrim s).toList with
    | some (m, d, y) => some (String.mk (y ++ '-' :: pad2 m ++ '-' :: pad2 d))
    | none => none

/-- The last-done-date acceptance path of `TaskEditor.save` (App.jsx 938-940):
    trim, normalize through `parseUSDateToISO` (falling back to the raw text),
    then require the `YYYY-MM-DD` digit shape; `none` is the rejecting `alert`,
    after which `onSave` is never called and no task is created or updated. -/
def saveLastDone (lastDoneISO : String) : Option String :=
  if isoShape ((parseUSDateToISO (jsTrim lastDoneISO)).getD (jsTrim lastDoneISO)) then
    some ((parseUSDateToISO (jsTrim lastDoneISO)).getD (jsTrim lastDoneISO))
  else none

/-- Numeric value of a digit string. -/
def digitsToNat (cs : List Char) : Nat :=
  cs.foldl (fun n c => 10 * n + (c.toNat - 48)) 0

/-- Gregorian month length. -/
def daysInMonth (y m : Nat) : Nat :=
  if m == 2 then
    if (y % 4 == 0 && y % 100 != 0) || y % 400 == 0 then 29 else 28
  else if m == 4 || m == 6 || m == 9 || m == 11 then 30
  else 31

/-- Modelled from the spec: "`lastDoneISO` is a valid calendar date" (§3) and
    "the in-memory model is never updated with an invalid date" (§7). The
    source contains no calendar-validity check (it tests only the digit shape),
    so this predicate renders the spec's notion of a valid calendar date in the
    stored `YYYY-MM-DD` form, for comparison with what the code accepts. -/
def isValidCalendarDate (s : String) : Bool :=
  match s.toList with
  | [a, b, c, d, h1, e, f, h2, g, k] =>
      if a.isDigit && b.isDigit && c.isDigit && d.isDigit && (h1 == '-') &&
         e.isDigit && f.isDigit && (h2 == '-') && g.isDigit && k.isDigit then
        let y := digitsToNat [a, b, c, d]
        let m := digitsToNat [e, f]
        let day := digitsToNat [g, k]
        1 ≤ m && m ≤ 12 && 1 ≤ day && day ≤ daysInMonth y m
      else false
  | _ => false

/- The backup and restore boundary, modelled on parsed JSON values. -/

/-- A parsed JSON value, the shape of backup files after `JSON.parse`. -/
inductive JVal where
  | null : JVal
  | bool : Bool → JVal
  | num : ℚ → JVal
  | str : String → JVal
  | arr : List JVal → JVal
  | obj : List (String × JVal) → JVal

/-- Object field lookup; on duplicate keys the last occurrence wins, as in
    `JSON.parse`. -/
def lookupField : List (String × JVal) → String → Option JVal
  | [], _ => none
  | (k, v) :: rest, key =>
    match lookupField rest key with
    | some w => some w
    | none => if k == key then some v else none

/-- JavaScript `j?.k`: field access that yields `undefined` (`none`) on
    non-objects instead of throwing. -/
def jGet (j : JVal) (key : String) : Option JVal :=
  match j with
  | JVal.obj fields => lookupField fields key
  | _ => none

/-- The test `x && Array.isArray(x)` applied to a field access: the field must
    exist and hold an array (arrays are always truthy). -/
def asArr : Option JVal → Option (List JVal)
  | some (JVal.arr xs) => some xs
  | _ => none

/-- The in-memory state as the restore code sees it: a task array and the
    `todayPlan` value, both taken verbatim from the file without validation. -/
structure AppStateJ where
  tasks : List JVal
  todayPlan : JVal

/-- Source `restoreFromFile` (App.jsx 568-593) after `JSON.parse`: the v1
    branch accepts any object with an array `tasks` field and resets the plan;
    the v2 branch accepts any object with `state.tasks` an array, defaulting a
    missing or null `todayPlan` to null; everything else throws, leaving the
    previous state untouched (the Boolean is the success flag). -/
def restoreFromFile (parsed : JVal) (prev : AppStateJ) : AppStateJ × Bool :=
  match asArr (jGet parsed "tasks") with
  | some xs => (⟨xs, JVal.null⟩, true)
  | none =>
    match jGet parsed "state" with
    | some st =>
      match asArr (jGet st "tasks") with
      | some xs => (⟨xs, (jGet st "todayPlan").getD JVal.null⟩, true)
      | none => (prev, false)
    | none => (prev, false)

/-- Source `backupNow` (App.jsx 559-566): the exported v2 snapshot
    `{version: 2, exportedAtISO, state: {tasks, todayPlan}}`. -/
def backupNow (exportedAtISO : String) (s : AppStateJ) : JVal :=
  JVal.obj [("version", JVal.num 2),
            ("exportedAtISO", JVal.str exportedAtISO),
            ("state", JVal.obj [("tasks", JVal.arr s.tasks),
                                ("todayPlan", s.todayPlan)])]

/-- Modelled from the spec: a "task-shaped record" (§3, §4.6) carries the Task
    fields `id, name, freqDays, lastDoneISO, estMin, history` with string names
    and dates, numeric frequency and estimate, and an array history. The source
    performs no such per-record check on restore; this definition renders the
    spec's words for comparison. -/
def isTaskShaped (j : JVal) : Bool :=
  match jGet j "id", jGet j "name", jGet j "freqDays",
        jGet j "lastDoneISO", jGet j "estMin", jGet j "history" with
  | some (JVal.str _), some (JVal.str _), some (JVal.num _),
    some (JVal.str _), some (JVal.num _), some (JVal.arr _) => true
  | _, _, _, _, _, _ => false

/- Facts about the urgency model (claim C2). -/

lemma latenessRatio_nonneg (t : Task) (now : Int) : 0 ≤ latenessRatio t now := by
  have hf : (0:ℚ) < max 1 (t.freqDays : ℚ) := lt_of_lt_of_le zero_lt_one (le_max_left _ _)
  exact div_nonneg (le_max_left _ _) hf.le

lemma one_le_latenessRatio_iff (t : Task) (now : Int) :
    1 ≤ latenessRatio t now ↔ max 1 t.freqDays ≤ now - t.lastDoneISO := by
  have hf : (0:ℚ) < max 1 (t.freqDays : ℚ) := lt_of_lt_of_le zero_lt_one (le_max_left _ _)
  have hcast : ((max 1 t.freqDays : Int) : ℚ) = max 1 ((t.freqDays : ℚ)) := by
    rw [Int.cast_max]; norm_num
  unfold latenessRatio daysBetweenISO
  rw [one_le_div hf, le_max_iff]
  constructor
  · rintro (h | h)
    · exact absurd h (not_le.mpr hf)
    · rw [← hcast] at h
      exact_mod_cast h
  · intro h
    right
    rw [← hcast]
    exact_mod_cast h

lemma dueBranch_iff (t : Task) (now : Int) :
    dueBranch t now ↔ 0 ≤ daysBetweenISO (computeDueISO t) now := by
  unfold dueBranch
  rw [not_lt, one_le_latenessRatio_iff]
  unfold daysBetweenISO computeDueISO addDaysISO
  omega

/-- C2: for every task and date, the urgency score is nonnegative; but the
    claimed equivalence between `isOverdue` and the "due" scoring branch fails
    on the exact due date, where the due branch runs while `isOverdue` is
    false. Amended: the due branch runs iff `daysBetween(dueDate, today) ≥ 0`,
    i.e. iff the task is overdue or due exactly today; `isOverdue` implies the
    due branch but not conversely. -/
theorem urgency_spec (t : Task) (now : Int) :
    0 ≤ urgencyScore t now ∧
    (dueBranch t now ↔ 0 ≤ daysBetweenISO (computeDueISO t) now) ∧
    (isOverdue t now = true → dueBranch t now) := by
  refine ⟨?_, dueBranch_iff t now, ?_⟩
  · have h0 := latenessRatio_nonneg t now
    unfold urgencyScore
    split
    · positivity
    · nlinarith [mul_self_nonneg (latenessRatio t now - 1)]
  · intro h
    rw [dueBranch_iff]
    unfold isOverdue at h
    rw [decide_eq_true_iff] at h
    omega

/-- Witness for C2 at a concrete task and date. -/
theorem urgency_spec_witness :
    0 ≤ urgencyScore ⟨"w", "w", 4, -10, 15, []⟩ 0 ∧
    (dueBranch ⟨"w", "w", 4, -10, 15, []⟩ 0 ↔
      0 ≤ daysBetweenISO (computeDueISO ⟨"w", "w", 4, -10, 15, []⟩) 0) ∧
    (isOverdue ⟨"w", "w", 4, -10, 15, []⟩ 0 = true → dueBranch ⟨"w", "w", 4, -10, 15, []⟩ 0) :=
  urgency_spec ⟨"w", "w", 4, -10, 15, []⟩ 0

/-- A task exactly due today: last done on day 0 with frequency 1, seen on
    day 1. -/
def c2Task : Task := ⟨"x", "x", 1, 0, 15, []⟩

/-- Counterexample for C2 as stated: on the exact due date the "due" branch
    is taken although `isOverdue` is false. -/
theorem urgency_overdue_cex : ¬ (isOverdue c2Task 1 = true ↔ dueBranch c2Task 1) := by
  intro h
  have hd : dueBranch c2Task 1 := by
    show ¬ latenessRatio c2Task 1 < 1
    norm_num [latenessRatio, daysBetweenISO, c2Task]
  have ho : isOverdue c2Task 1 = true := h.mpr hd
  have : isOverdue c2Task 1 = false := by decide
  rw [this] at ho
  cases ho

/- Facts about the estimate learner (claims C5 and C10). -/

lemma ewmaOldV_int (n : Int) (h : 1 ≤ n) : ewmaOldV (some (n : ℚ)) = (n : ℚ) := by
  have h1 : (1 : ℚ) ≤ (n : ℚ) := by exact_mod_cast h
  have hne : (n : ℚ) ≠ 0 := by intro h0; rw [h0] at h1; norm_num at h1
  simp only [ewmaOldV, jsOr]
  rw [if_neg hne]
  exact max_eq_right h1

/-- C5: with integer inputs at least 1, `ewmaUpdate` with smoothing 0.3 equals
    the rounded exponential average, is at least 1, and lies between the old
    estimate and the actual minutes (in either order). -/
theorem ewmaUpdate_bounds (old act : Int) (h1 : 1 ≤ old) (h2 : 1 ≤ act) :
    ewmaUpdate (some (old : ℚ)) (some (act : ℚ)) (3/10)
        = round ((old : ℚ) * (7/10) + (act : ℚ) * (3/10)) ∧
    1 ≤ ewmaUpdate (some (old : ℚ)) (some (act : ℚ)) (3/10) ∧
    min old act ≤ ewmaUpdate (some (old : ℚ)) (some (act : ℚ)) (3/10) ∧
    ewmaUpdate (some (old : ℚ)) (some (act : ℚ)) (3/10) ≤ max old act := by
  have hold : (1:ℚ) ≤ (old:ℚ) := by exact_mod_cast h1
  have hact : (1:ℚ) ≤ (act:ℚ) := by exact_mod_cast h2
  have hactne : (act : ℚ) ≠ 0 := by intro h0; rw [h0] at hact; norm_num at hact
  have hOldV : ewmaOldV (some (old : ℚ)) = (old : ℚ) := ewmaOldV_int old h1
  have hActV : ewmaActV (some (old : ℚ)) (some (act : ℚ)) = (act : ℚ) := by
    simp only [ewmaActV, jsOr]
    rw [if_neg hactne]
    exact max_eq_right hact
  have hval : ewmaOldV (some (old : ℚ)) * (1 - 3/10)
      + ewmaActV (some (old : ℚ)) (some (act : ℚ)) * (3/10)
      = (old : ℚ) * (7/10) + (act : ℚ) * (3/10) := by
    rw [hOldV, hActV]; ring
  have hge1 : (1:ℚ) ≤ (old : ℚ) * (7/10) + (act : ℚ) * (3/10) := by linarith
  have hround1 : (1:Int) ≤ round ((old : ℚ) * (7/10) + (act : ℚ) * (3/10)) := by
    rw [round_eq, Int.le_floor]
    push_cast
    linarith
  have hres : ewmaUpdate (some (old : ℚ)) (some (act : ℚ)) (3/10)
      = round ((old : ℚ) * (7/10) + (act : ℚ) * (3/10)) := by
    unfold ewmaUpdate
    rw [hval]
    exact max_eq_right hround1
  refine ⟨hres, ?_, ?_, ?_⟩
  · rw [hres]; exact hround1
  · rw [hres, round_eq, Int.le_floor]
    have hl : ((min old act : Int) : ℚ) ≤ (old : ℚ) := by
      exact_mod_cast min_le_left old act
    have hr : ((min old act : Int) : ℚ) ≤ (act : ℚ) := by
      exact_mod_cast min_le_right old act
    linarith
  · rw [hres, round_eq, ← Int.lt_add_one_iff, Int.floor_lt]
    have hl : (old : ℚ) ≤ ((max old act : Int) : ℚ) := by
      exact_mod_cast le_max_left old act
    have hr : (act : ℚ) ≤ ((max old act : Int) : ℚ) := by
      exact_mod_cast le_max_right old act
    push_cast at hl hr ⊢
    linarith

/-- Witness for C5 at the spec's own example `updateEstimate(15, 30) = 20`. -/
theorem ewmaUpdate_bounds_witness :
    (1 ≤ (15:Int)) ∧ (1 ≤ (30:Int)) ∧
    (ewmaUpdate (some ((15:Int) : ℚ)) (some ((30:Int) : ℚ)) (3/10)
        = round (((15:Int) : ℚ) * (7/10) + ((30:Int) : ℚ) * (3/10)) ∧
     1 ≤ ewmaUpdate (some ((15:Int) : ℚ)) (some ((30:Int) : ℚ)) (3/10) ∧
     min (15:Int) 30 ≤ ewmaUpdate (some ((15:Int) : ℚ)) (some ((30:Int) : ℚ)) (3/10) ∧
     ewmaUpdate (some ((15:Int) : ℚ)) (some ((30:Int) : ℚ)) (3/10) ≤ max (15:Int) 30) :=
  ⟨by norm_num, by norm_num, ewmaUpdate_bounds 15 30 (by norm_num) (by norm_num)⟩

/-- C10 amended: `ewmaUpdate` is total and returns an integer at least 1; a
    `NaN` or zero old estimate defaults to 15 (not to 1); a `NaN` or zero
    actual defaults to the defaulted old estimate, so the call returns
    `max 1 (round oldV)` — the old estimate unchanged whenever that estimate
    is a whole number at least 1. -/
theorem ewma_total_defaults (oldEst actualMin : Option ℚ) (alpha : ℚ) :
    1 ≤ ewmaUpdate oldEst actualMin alpha ∧
    ewmaOldV none = 15 ∧ ewmaOldV (some 0) = 15 ∧
    ewmaUpdate oldEst none alpha = max 1 (round (ewmaOldV oldEst)) ∧
    ewmaUpdate oldEst (some 0) alpha = max 1 (round (ewmaOldV oldEst)) ∧
    (∀ n : Int, 1 ≤ n → oldEst = some ((n : ℚ)) →
      ewmaUpdate oldEst none alpha = n ∧ ewmaUpdate oldEst (some 0) alpha = n) := by
  have hOld1 : (1:ℚ) ≤ ewmaOldV oldEst := le_max_left _ _
  have hActNone : ewmaActV oldEst none = ewmaOldV oldEst := by
    simp only [ewmaActV, jsOr]
    exact max_eq_right hOld1
  have hActZero : ewmaActV oldEst (some 0) = ewmaOldV oldEst := by
    simp only [ewmaActV, jsOr, if_true]
    exact max_eq_right hOld1
  have hcollapse : ∀ v : ℚ, v * (1 - alpha) + v * alpha = v := by intro v; ring
  have hNone : ewmaUpdate oldEst none alpha = max 1 (round (ewmaOldV oldEst)) := by
    unfold ewmaUpdate
    rw [hActNone, hcollapse]
  have hZero : ewmaUpdate oldEst (some 0) alpha = max 1 (round (ewmaOldV oldEst)) := by
    unfold ewmaUpdate
    rw [hActZero, hcollapse]
  refine ⟨le_max_left _ _, ?_, ?_, hNone, hZero, ?_⟩
  · simp only [ewmaOldV, jsOr]; norm_num
  · simp only [ewmaOldV, jsOr]; norm_num
  · intro n hn hsome
    have hOldV : ewmaOldV oldEst = (n : ℚ) := by rw [hsome]; exact ewmaOldV_int n hn
    have hroundn : round ((n : ℚ)) = n := round_intCast n
    have hmax : max 1 n = n := max_eq_right hn
    constructor
    · rw [hNone, hOldV, hroundn, hmax]
    · rw [hZero, hOldV, hroundn, hmax]

/-- Witness for C10's amended statement at concrete inputs. -/
theorem ewma_total_defaults_witness :
    1 ≤ ewmaUpdate (some ((7:Int) : ℚ)) (some 0) (3/10) ∧
    ewmaOldV none = 15 ∧ ewmaOldV (some 0) = 15 ∧
    ewmaUpdate (some ((7:Int) : ℚ)) none (3/10)
        = max 1 (round (ewmaOldV (some ((7:Int) : ℚ)))) ∧
    ewmaUpdate (some ((7:Int) : ℚ)) (some 0) (3/10)
        = max 1 (round (ewmaOldV (some ((7:Int) : ℚ)))) ∧
    (∀ n : Int, 1 ≤ n → (some ((7:Int) : ℚ) : Option ℚ) = some ((n : ℚ)) →
      ewmaUpdate (some ((7:Int) : ℚ)) none (3/10) = n ∧
      ewmaUpdate (some ((7:Int) : ℚ)) (some 0) (3/10) = n) :=
  ewma_total_defaults (some ((7:Int) : ℚ)) (some 0) (3/10)

/-- Counterexample for C10 as stated: with a fractional stored estimate 2.6
    and a zero actual, the call returns 3, not the (defaulted) old estimate
    unchanged. -/
theorem ewma_unchanged_cex :
    ewmaUpdate (some (13/5)) (some 0) (3/10) = 3 ∧
    ewmaOldV (some (13/5)) = 13/5 ∧ ((3 : ℚ) ≠ 13/5) := by
  have hOldV : ewmaOldV (some (13/5)) = 13/5 := by
    simp only [ewmaOldV, jsOr]
    norm_num
  have hActV : ewmaActV (some (13/5)) (some 0) = 13/5 := by
    simp only [ewmaActV, jsOr, if_true, hOldV]
    norm_num
  refine ⟨?_, hOldV, by norm_num⟩
  unfold ewmaUpdate
  rw [hOldV, hActV]
  have hv : (13/5 : ℚ) * (1 - 3/10) + (13/5 : ℚ) * (3/10) = 13/5 := by ring
  rw [hv, round_eq]
  norm_num

/- Facts about the task editor date boundary (claim C6). -/

/-- C6 amended: the manual-edit boundary accepts exactly the strings whose
    trimmed, `parseUSDateToISO`-normalized form matches the `YYYY-MM-DD` digit
    shape; accepted values are stored in that shape, rejected ones update no
    task — but calendar validity (month and day ranges) is not checked. -/
theorem saveLastDone_shape (s : String) :
    (∀ out, saveLastDone s = some out → isoShape out = true) ∧
    (isoShape ((parseUSDateToISO (jsTrim s)).getD (jsTrim s)) = false →
      saveLastDone s = none) := by
  constructor
  · intro out h
    unfold saveLastDone at h
    split at h
    · next hsh =>
        injection h with h
        rw [← h]
        exact hsh
    · cases h
  · intro h
    unfold saveLastDone
    split
    · next hsh => rw [h] at hsh; cases hsh
    · rfl

/-- Witness for C6's amended statement: the valid input `1/5/2024` is accepted
    and stored as `2024-01-05`. -/
theorem saveLastDone_shape_witness :
    ((∀ out, saveLastDone "1/5/2024" = some out → isoShape out = true) ∧
     (isoShape ((parseUSDateToISO (jsTrim "1/5/2024")).getD (jsTrim "1/5/2024")) = false →
       saveLastDone "1/5/2024" = none)) ∧
    saveLastDone "1/5/2024" = some "2024-01-05" :=
  ⟨saveLastDone_shape "1/5/2024", by decide⟩

/-- Counterexample for C6 as stated: `13/45/2024` does not denote a valid
    calendar date, yet the edit boundary accepts it and would store
    `2024-13-45` as the task's `lastDoneISO`. -/
theorem saveLastDone_cex :
    saveLastDone "13/45/2024" = some "2024-13-45" ∧
    isValidCalendarDate "2024-13-45" = false := by
  constructor
  · decide
  · decide

/- Facts about the plan builder (claim C1). -/

lemma planFill_sublist (B : Int) (l : List ScoredItem) (t : Int) :
    (planFill B l t).1.Sublist l := by
  induction l generalizing t with
  | nil => simp [planFill]
  | cons item rest ih =>
    simp only [planFill]
    split
    · exact List.nil_sublist _
    · split
      · exact (ih t).trans (List.sublist_cons_self item rest)
      · exact List.Sublist.cons₂ item (ih (t + item.est))

lemma planFill_total (B : Int) (l : List ScoredItem) (t : Int) :
    (planFill B l t).2 = t + ((planFill B l t).1.map fun i => i.est).sum := by
  induction l generalizing t with
  | nil => simp [planFill]
  | cons item rest ih =>
    simp only [planFill]
    split
    · simp
    · split
      · exact ih t
      · simp only [List.map_cons, List.sum_cons]
        rw [ih (t + item.est)]
        ring

lemma planFill_le (B : Int) (l : List ScoredItem) (t : Int) (h : t ≤ B) :
    (planFill B l t).2 ≤ B := by
  induction l generalizing t with
  | nil => simpa [planFill]
  | cons item rest ih =>
    simp only [planFill]
    split
    · simpa
    · next h1 =>
      split
      · exact ih t h
      · next h2 => exact ih (t + item.est) (by omega)

lemma planFill_nil_iff (B : Int) (l : List ScoredItem) (hB : 0 < B) :
    (planFill B l 0).1 = [] ↔ ∀ i ∈ l, B < i.est := by
  induction l with
  | nil => simp [planFill]
  | cons item rest ih =>
    simp only [planFill]
    rw [if_neg (by omega)]
    split
    · next h1 =>
      rw [ih]
      constructor
      · intro h i hi
        rcases List.mem_cons.mp hi with rfl | hi
        · omega
        · exact h i hi
      · intro h i hi
        exact h i (List.mem_cons_of_mem _ hi)
    · next h1 =>
      constructor
      · intro h
        exact absurd h (List.cons_ne_nil _ _)
      · intro h
        exact absurd (h item (List.mem_cons_self _ _)) (by omega)

lemma sortedScored_perm (tasks : List Task) (now : Int) :
    (sortedScored tasks now).Perm (scoreItems tasks now) :=
  List.mergeSort_perm _ _

lemma mem_sortedScored (tasks : List Task) (now : Int) {i : ScoredItem}
    (h : i ∈ sortedScored tasks now) : ∃ t ∈ tasks, i = scoreOne now t := by
  have hm := (sortedScored_perm tasks now).mem_iff.mp h
  rcases List.mem_map.mp hm with ⟨t, ht, hi⟩
  exact ⟨t, ht, hi.symm⟩

lemma sortedScored_map_id (tasks : List Task) (now : Int) :
    ((sortedScored tasks now).map fun i => i.task.id).Perm (tasks.map Task.id) := by
  have h1 := (sortedScored_perm tasks now).map (fun i => i.task.id)
  have h2 : ((scoreItems tasks now).map fun i => i.task.id) = tasks.map Task.id := by
    simp only [scoreItems, List.map_map]
    rfl
  rw [h2] at h1
  exact h1

lemma buildPlan_eq_degenerate {tasks : List Task} {now B : Int} {s0 : ScoredItem}
    {srest : List ScoredItem}
    (hfill : (planFill B (sortedScored tasks now) 0).1 = [])
    (hscored : sortedScored tasks now = s0 :: srest) :
    buildPlan tasks now B = ⟨[s0.task.id], max 1 s0.est⟩ := by
  unfold buildPlan
  rw [hfill, hscored]

lemma buildPlan_eq_normal {tasks : List Task} {now B : Int} {p0 : ScoredItem}
    {prest : List ScoredItem}
    (hfill : (planFill B (sortedScored tasks now) 0).1 = p0 :: prest) :
    buildPlan tasks now B
      = ⟨(p0 :: prest).map fun i => i.task.id,
         (planFill B (sortedScored tasks now) 0).2⟩ := by
  unfold buildPlan
  rw [hfill]

lemma buildPlan_eq_empty {tasks : List Task} {now B : Int}
    (hfill : (planFill B (sortedScored tasks now) 0).1 = [])
    (hscored : sortedScored tasks now = []) :
    buildPlan tasks now B = ⟨[], (planFill B (sortedScored tasks now) 0).2⟩ := by
  unfold buildPlan
  rw [hfill, hscored]
  rfl

/-- C1: with a positive budget and pairwise distinct task ids, the plan
    builder picks each id at most once; when no task estimate fits the budget
    it returns exactly the single highest-priority entry of the sorted order;
    otherwise the picked tasks' clamped estimates sum to at most the budget. -/
theorem buildPlan_spec (tasks : List Task) (now B : Int) (hB : 0 < B)
    (hids : (tasks.map Task.id).Nodup) :
    (buildPlan tasks now B).pickedIds.Nodup ∧
    ((∀ t ∈ tasks, B < estOf t) →
        (buildPlan tasks now B).pickedIds
          = ((sortedScored tasks now).map fun i => i.task.id).take 1) ∧
    ((∃ t ∈ tasks, estOf t ≤ B) →
        ∃ items : List ScoredItem,
          (buildPlan tasks now B).pickedIds = items.map (fun i => i.task.id) ∧
          (items.map fun i => i.est).sum ≤ B ∧
          ∀ i ∈ items, i.task ∈ tasks ∧ i.est = estOf i.task) := by
  refine ⟨?_, ?_, ?_⟩
  · rcases hfill : (planFill B (sortedScored tasks now) 0).1 with _ | ⟨p0, prest⟩
    · rcases hscored : sortedScored tasks now with _ | ⟨s0, srest⟩
      · rw [buildPlan_eq_empty hfill hscored]
        simp
      · rw [buildPlan_eq_degenerate hfill hscored]
        simp
    · rw [buildPlan_eq_normal hfill]
      have hsub := planFill_sublist B (sortedScored tasks now) 0
      rw [hfill] at hsub
      have hmapsub := hsub.map (fun i => i.task.id)
      have hnodup2 : ((sortedScored tasks now).map fun i => i.task.id).Nodup :=
        (sortedScored_map_id tasks now).nodup_iff.mpr hids
      exact List.Nodup.sublist hmapsub hnodup2
  · intro hall
    have hallB : ∀ i ∈ sortedScored tasks now, B < i.est := by
      intro i hi
      rcases mem_sortedScored tasks now hi with ⟨t, ht, rfl⟩
      exact hall t ht
    have hfill0 : (planFill B (sortedScored tasks now) 0).1 = [] :=
      (planFill_nil_iff B _ hB).mpr hallB
    rcases hscored : sortedScored tasks now with _ | ⟨s0, srest⟩
    · rw [buildPlan_eq_empty hfill0 hscored]
      simp
    · rw [buildPlan_eq_degenerate hfill0 hscored]
      simp
  · rintro ⟨t0, ht0, hle⟩
    have hex : ¬ ∀ i ∈ sortedScored tasks now, B < i.est := by
      intro hall
      have hmem : scoreOne now t0 ∈ sortedScored tasks now :=
        (sortedScored_perm tasks now).mem_iff.mpr (List.mem_map_of_mem _ ht0)
      have hgt : B < (scoreOne now t0).est := hall _ hmem
      have hgt2 : B < estOf t0 := hgt
      omega
    have hfillne : (planFill B (sortedScored tasks now) 0).1 ≠ [] := by
      intro h0
      exact hex ((planFill_nil_iff B _ hB).mp h0)
    rcases hfill : (planFill B (sortedScored tasks now) 0).1 with _ | ⟨p0, prest⟩
    · exact absurd hfill hfillne
    · refine ⟨p0 :: prest, ?_, ?_, ?_⟩
      · rw [buildPlan_eq_normal hfill]
      · have htot := planFill_total B (sortedScored tasks now) 0
        have hle2 := planFill_le B (sortedScored tasks now) 0 (le_of_lt hB)
        rw [htot, hfill] at hle2
        omega
      · intro i hi
        have hsub := planFill_sublist B (sortedScored tasks now) 0
        rw [hfill] at hsub
        have hmem := hsub.subset hi
        rcases mem_sortedScored tasks now hmem with ⟨t, ht, rfl⟩
        exact ⟨ht, rfl⟩

/-- A concrete overdue task for exercising the plan builder. -/
def wTask : Task := ⟨"a", "A", 4, -10, 15, []⟩

/-- Witness for C1: one overdue 15-minute task against a 60-minute budget. -/
theorem buildPlan_spec_witness :
    (0 : Int) < 60 ∧ ([wTask].map Task.id).Nodup ∧
    ((buildPlan [wTask] 0 60).pickedIds.Nodup ∧
     ((∀ t ∈ [wTask], (60 : Int) < estOf t) →
         (buildPlan [wTask] 0 60).pickedIds
           = ((sortedScored [wTask] 0).map fun i => i.task.id).take 1) ∧
     ((∃ t ∈ [wTask], estOf t ≤ (60 : Int)) →
         ∃ items : List ScoredItem,
           (buildPlan [wTask] 0 60).pickedIds = items.map (fun i => i.task.id) ∧
           (items.map fun i => i.est).sum ≤ 60 ∧
           ∀ i ∈ items, i.task ∈ [wTask] ∧ i.est = estOf i.task)) :=
  ⟨by norm_num, by decide, buildPlan_spec [wTask] 0 60 (by norm_num) (by decide)⟩

/- Facts about `Array.from(new Set(...))` and the completion update. -/

lemma mem_jsSetOf {a : String} : ∀ {l : List String}, a ∈ jsSetOf l ↔ a ∈ l := by
  intro l
  induction l with
  | nil => simp [jsSetOf]
  | cons x xs ih =>
    simp only [jsSetOf, List.mem_cons, List.mem_filter, decide_eq_true_eq]
    constructor
    · rintro (rfl | ⟨h1, _⟩)
      · exact Or.inl rfl
      · exact Or.inr (ih.mp h1)
    · rintro (rfl | h)
      · exact Or.inl rfl
      · by_cases hax : a = x
        · exact Or.inl hax
        · exact Or.inr ⟨ih.mpr h, hax⟩

lemma jsSetOf_nodup : ∀ (l : List String), (jsSetOf l).Nodup := by
  intro l
  induction l with
  | nil => simp [jsSetOf]
  | cons x xs ih =>
    simp only [jsSetOf]
    rw [List.nodup_cons]
    refine ⟨?_, ih.filter _⟩
    intro hmem
    rcases List.mem_filter.mp hmem with ⟨_, hdec⟩
    rw [decide_eq_true_eq] at hdec
    exact hdec rfl

lemma filter_ne_self {xs : List String} {x : String} (hx : x ∉ xs) :
    xs.filter (fun y => decide (y ≠ x)) = xs :=
  List.filter_eq_self.mpr fun y hy => by
    rw [decide_eq_true_eq]
    intro h
    exact hx (h ▸ hy)

lemma jsSetOf_eq_self : ∀ {l : List String}, l.Nodup → jsSetOf l = l := by
  intro l
  induction l with
  | nil => intro _; rfl
  | cons x xs ih =>
    intro h
    rcases List.nodup_cons.mp h with ⟨hx, hxs⟩
    simp only [jsSetOf]
    rw [ih hxs, filter_ne_self hx]

lemma jsSetOf_cons (x : String) (l : List String) :
    jsSetOf (x :: l) = x :: (jsSetOf l).filter (fun y => decide (y ≠ x)) := rfl

lemma jsSetOf_append_not_mem : ∀ {l : List String} {y : String}, y ∉ l →
    jsSetOf (l ++ [y]) = jsSetOf l ++ [y] := by
  intro l
  induction l with
  | nil => intro y _; rfl
  | cons x xs ih =>
    intro y hy
    have hyx : y ≠ x := fun h => hy (h ▸ List.mem_cons_self x xs)
    have hyxs : y ∉ xs := fun h => hy (List.mem_cons_of_mem _ h)
    have hfy : List.filter (fun z => decide (z ≠ x)) [y] = [y] := by simp [hyx]
    rw [List.cons_append, jsSetOf_cons, ih hyxs, List.filter_append, hfy, jsSetOf_cons,
        List.cons_append]

lemma jsSetOf_append_mem : ∀ {l : List String} {a : String}, l.Nodup → a ∈ l →
    jsSetOf (l ++ [a]) = l := by
  intro l
  induction l with
  | nil => intro a _ h; cases h
  | cons x xs ih =>
    intro a hnd hmem
    rcases List.nodup_cons.mp hnd with ⟨hx, hxs⟩
    rcases List.mem_cons.mp hmem with rfl | hmem2
    · have hfa : List.filter (fun z => decide (z ≠ a)) [a] = [] := by simp
      rw [List.cons_append, jsSetOf_cons, jsSetOf_append_not_mem hx, jsSetOf_eq_self hxs,
          List.filter_append, filter_ne_self hx, hfa, List.append_nil]
    · rw [List.cons_append, jsSetOf_cons, ih hxs hmem2, filter_ne_self hx]

lemma confirmDone_plan_today {s : AppState} {P C : List String} {id : String}
    {a : Option ℚ} {now : Int}
    (h : s.todayPlan = some ⟨now, P, C⟩) :
    (confirmDone id a now s).todayPlan = some ⟨now, P, jsSetOf (C ++ [id])⟩ := by
  unfold confirmDone
  rw [h]
  dsimp only
  rw [if_pos rfl]

lemma confirmDone_plan_stale {s : AppState} {tp : Plan} {id : String}
    {a : Option ℚ} {now : Int}
    (h : s.todayPlan = some tp) (hdate : tp.dateISO ≠ now) :
    (confirmDone id a now s).todayPlan = s.todayPlan := by
  unfold confirmDone
  rw [h]
  dsimp only
  rw [if_neg hdate]

lemma confirmDone_plan_none {s : AppState} {id : String} {a : Option ℚ} {now : Int}
    (h : s.todayPlan = none) :
    (confirmDone id a now s).todayPlan = none := by
  unfold confirmDone
  rw [h]

lemma markCompleteMany_plan {now : Int} {P : List String} :
    ∀ (steps : List (String × Option ℚ)) (s : AppState) (C : List String),
      s.todayPlan = some ⟨now, P, C⟩ → C.Nodup →
      ∃ D, (markCompleteMany now steps s).todayPlan = some ⟨now, P, D⟩ ∧
        D.Nodup ∧ C ⊆ D := by
  intro steps
  induction steps with
  | nil => intro s C h hnd; exact ⟨C, h, hnd, fun _ hx => hx⟩
  | cons p rest ih =>
    intro s C h hnd
    have hstep := @confirmDone_plan_today s P C p.1 p.2 now h
    rcases ih (confirmDone p.1 p.2 now s) (jsSetOf (C ++ [p.1])) hstep (jsSetOf_nodup _)
      with ⟨D, hD, hDnd, hCD⟩
    refine ⟨D, ?_, hDnd, ?_⟩
    · simpa [markCompleteMany, List.foldl_cons] using hD
    · intro x hx
      exact hCD (mem_jsSetOf.mpr (List.mem_append_left _ hx))

/-- C4: starting from a day with no plan yet, `ensurePlan(false)` creates a
    plan with empty completions; any sequence of completions leaves
    `pickedIds` and `dateISO` untouched while `completedIds` grows
    monotonically without duplicates, repeating a completion changes nothing,
    and a further `ensurePlan(false)` on the same day is the identity. -/
theorem plan_locking (s0 : AppState) (now budget : Int)
    (h0 : ∀ tp, s0.todayPlan = some tp → tp.dateISO ≠ now)
    (steps : List (String × Option ℚ)) (b2 : Int) :
    ∃ P C,
      (ensureTodayPlan false now budget s0).todayPlan = some ⟨now, P, []⟩ ∧
      (lockedRun s0 now budget steps).todayPlan = some ⟨now, P, C⟩ ∧
      C.Nodup ∧
      (∀ id a, (confirmDone id a now (lockedRun s0 now budget steps)).todayPlan
          = some ⟨now, P, jsSetOf (C ++ [id])⟩) ∧
      (∀ id, C ⊆ jsSetOf (C ++ [id])) ∧
      (∀ id a b,
        (confirmDone id b now (confirmDone id a now (lockedRun s0 now budget steps))).todayPlan
          = (confirmDone id a now (lockedRun s0 now budget steps)).todayPlan) ∧
      ensureTodayPlan false now b2 (lockedRun s0 now budget steps)
        = lockedRun s0 now budget steps := by
  have hnottoday : planIsForToday s0 now = false := by
    unfold planIsForToday
    rcases hs : s0.todayPlan with _ | tp
    · rfl
    · exact beq_eq_false_iff_ne.mpr (h0 tp hs)
  have hens : (ensureTodayPlan false now budget s0).todayPlan
      = some ⟨now, (buildPlan s0.tasks now budget).pickedIds, []⟩ := by
    unfold ensureTodayPlan
    rw [hnottoday]
    rfl
  rcases markCompleteMany_plan steps (ensureTodayPlan false now budget s0) [] hens
      List.nodup_nil with ⟨C, hC, hCnd, _⟩
  have hC2 : (lockedRun s0 now budget steps).todayPlan
      = some ⟨now, (buildPlan s0.tasks now budget).pickedIds, C⟩ := hC
  refine ⟨(buildPlan s0.tasks now budget).pickedIds, C, hens, hC2, hCnd, ?_, ?_, ?_, ?_⟩
  · intro id a
    exact confirmDone_plan_today hC2
  · intro id x hx
    exact mem_jsSetOf.mpr (List.mem_append_left _ hx)
  · intro id a b
    have h1 : (confirmDone id a now (lockedRun s0 now budget steps)).todayPlan
        = some ⟨now, (buildPlan s0.tasks now budget).pickedIds, jsSetOf (C ++ [id])⟩ :=
      confirmDone_plan_today hC2
    have h2 : (confirmDone id b now
          (confirmDone id a now (lockedRun s0 now budget steps))).todayPlan
        = some ⟨now, (buildPlan s0.tasks now budget).pickedIds,
                jsSetOf (jsSetOf (C ++ [id]) ++ [id])⟩ :=
      confirmDone_plan_today h1
    rw [h1, h2]
    have hidmem : id ∈ jsSetOf (C ++ [id]) :=
      mem_jsSetOf.mpr (List.mem_append_right _ (List.mem_singleton_self id))
    rw [jsSetOf_append_mem (jsSetOf_nodup _) hidmem]
  · have htoday : planIsForToday (lockedRun s0 now budget steps) now = true := by
      unfold planIsForToday
      rw [hC2]
      exact beq_self_eq_true now
    unfold ensureTodayPlan
    rw [htoday]
    rfl

/-- Witness for C4: the empty initial state, a 60-minute budget, and no
    completion steps. -/
theorem plan_locking_witness :
    (∀ tp, (⟨[], none⟩ : AppState).todayPlan = some tp → tp.dateISO ≠ 0) ∧
    (∃ P C,
      (ensureTodayPlan false 0 60 ⟨[], none⟩).todayPlan = some ⟨0, P, []⟩ ∧
      (lockedRun ⟨[], none⟩ 0 60 []).todayPlan = some ⟨0, P, C⟩ ∧
      C.Nodup ∧
      (∀ id a, (confirmDone id a 0 (lockedRun ⟨[], none⟩ 0 60 [])).todayPlan
          = some ⟨0, P, jsSetOf (C ++ [id])⟩) ∧
      (∀ id, C ⊆ jsSetOf (C ++ [id])) ∧
      (∀ id a b,
        (confirmDone id b 0 (confirmDone id a 0 (lockedRun ⟨[], none⟩ 0 60 []))).todayPlan
          = (confirmDone id a 0 (lockedRun ⟨[], none⟩ 0 60 [])).todayPlan) ∧
      ensureTodayPlan false 0 60 (lockedRun ⟨[], none⟩ 0 60 [])
        = lockedRun ⟨[], none⟩ 0 60 []) :=
  ⟨fun _ h => Option.noConfusion h,
   plan_locking ⟨[], none⟩ 0 60 (fun _ h => Option.noConfusion h) [] 60⟩

/-- C3 amended: `completedIds ⊆ pickedIds` holds in every state reachable by
    the listed operations provided completion events target tasks picked in
    today's plan and restored plans already satisfy the invariant. As the
    code runs them (Done offered on every task, restore unvalidated), the
    invariant can be broken. -/
theorem completed_subset_picked (s : AppState) (h : ReachableG s) : planInv s := by
  induction h with
  | init => intro tp h; cases h
  | @ensure force now budget s hs ih =>
    intro tp h
    unfold ensureTodayPlan at h
    split at h
    · exact ih tp h
    · injection h with h
      rw [← h]
      intro x hx
      cases hx
  | @done id a now s hs hex hguard ih =>
    intro tp2 h2
    rcases hplan : s.todayPlan with _ | tp
    · rw [confirmDone_plan_none hplan] at h2
      cases h2
    · by_cases hdate : tp.dateISO = now
      · have hplan2 : s.todayPlan = some ⟨now, tp.pickedIds, tp.completedIds⟩ := by
          rw [hplan, ← hdate]
        rw [confirmDone_plan_today hplan2] at h2
        injection h2 with h2
        rw [← h2]
        intro x hx
        rcases List.mem_append.mp (mem_jsSetOf.mp hx) with hx2 | hx2
        · exact ih tp hplan hx2
        · rw [List.mem_singleton] at hx2
          rw [hx2]
          exact hguard tp hplan hdate
      · rw [confirmDone_plan_stale hplan hdate, hplan] at h2
        injection h2 with h2
        rw [← h2]
        exact ih tp hplan
  | @edit u s hs ih =>
    intro tp h
    unfold upsertTask at h
    split at h
    · exact ih tp h
    · exact ih tp h
  | @del id s hs ih =>
    intro tp h
    unfold deleteTask at h
    rcases hplan : s.todayPlan with _ | tp0
    · rw [hplan] at h
      cases h
    · rw [hplan] at h
      injection h with h
      rw [← h]
      intro x hx
      rcases List.mem_filter.mp hx with ⟨hx1, hx2⟩
      exact List.mem_filter.mpr ⟨ih tp0 hplan hx1, hx2⟩
  | @importRows parsed s hs ih =>
    intro tp h
    unfold importTasksReplaceList at h
    split at h
    · exact ih tp h
    · cases h
  | @restoreLegacy ts s hs ih =>
    intro tp h
    cases h
  | @restoreV2 ts p s hs hp ih =>
    intro tp h
    exact hp tp h

/-- Witness for C3's amended statement: the empty initial state. -/
theorem completed_subset_picked_witness :
    ReachableG (⟨[], none⟩ : AppState) ∧ planInv (⟨[], none⟩ : AppState) :=
  ⟨ReachableG.init, completed_subset_picked ⟨[], none⟩ ReachableG.init⟩

/-- First counterexample task: overdue, picked into the day's plan. -/
def cexT1 : Task := ⟨"a", "A", 4, -10, 15, []⟩

/-- Second counterexample task: added after the plan was generated. -/
def cexT2 : Task := ⟨"b", "B", 7, -1, 15, []⟩

lemma cex_sorted : sortedScored [cexT1] 0 = [scoreOne 0 cexT1] :=
  List.perm_singleton.mp (sortedScored_perm [cexT1] 0)

lemma cex_fill : planFill 60 [scoreOne 0 cexT1] 0 = ([scoreOne 0 cexT1], 15) := rfl

lemma cex_buildPlan : buildPlan [cexT1] 0 60 = ⟨["a"], 15⟩ := by
  unfold buildPlan
  rw [cex_sorted, cex_fill]
  rfl

lemma cex_ensure : ensureTodayPlan false 0 60 (upsertTask cexT1 ⟨[], none⟩)
    = ⟨[cexT1], some ⟨0, ["a"], []⟩⟩ := by
  show ensureTodayPlan false 0 60 ⟨[cexT1], none⟩ = ⟨[cexT1], some ⟨0, ["a"], []⟩⟩
  unfold ensureTodayPlan
  rw [if_neg (by decide)]
  dsimp only
  rw [cex_buildPlan]

/-- The state reached by: add task `a`, generate today's plan (picking `a`),
    then add task `b` and mark `b` done. -/
def cexState : AppState :=
  confirmDone "b" (some 15) 0
    (upsertTask cexT2 (ensureTodayPlan false 0 60 (upsertTask cexT1 ⟨[], none⟩)))

/-- Counterexample for C3 as stated: marking done an existing task that is not
    in today's plan puts its id into `completedIds` but not into `pickedIds`,
    so the reachable state `cexState` violates `completedIds ⊆ pickedIds`. -/
theorem completed_subset_picked_cex :
    ReachableU cexState ∧ cexState.todayPlan = some ⟨0, ["a"], ["b"]⟩ ∧
    ¬ ((["b"] : List String) ⊆ ["a"]) := by
  refine ⟨?_, ?_, by decide⟩
  · refine ReachableU.done "b" (some 15) 0 ?_ ?_
    · exact ReachableU.edit cexT2
        (ReachableU.ensure false 0 60 (ReachableU.edit cexT1 ReachableU.init))
    · rw [cex_ensure]
      decide
  · show (confirmDone "b" (some 15) 0
        (upsertTask cexT2 (ensureTodayPlan false 0 60 (upsertTask cexT1 ⟨[], none⟩)))).todayPlan
      = some ⟨0, ["a"], ["b"]⟩
    rw [cex_ensure]
    have hup2 : upsertTask cexT2 ⟨[cexT1], some ⟨0, ["a"], []⟩⟩
        = ⟨[cexT1, cexT2], some ⟨0, ["a"], []⟩⟩ := by decide
    rw [hup2]
    rw [confirmDone_plan_today
      (show (⟨[cexT1, cexT2], some ⟨0, ["a"], []⟩⟩ : AppState).todayPlan
        = some ⟨0, ["a"], []⟩ from rfl)]
    rfl

/- Facts about the bounded history (claim C8). -/

lemma applyCompletions_spec :
    ∀ (completions : List (Int × Int)) (h0 : List HRec),
      h0.length ≤ 20 →
      List.Pairwise (fun r s => s.dateISO ≤ r.dateISO) h0 →
      (∀ r ∈ h0, ∀ c ∈ completions, r.dateISO ≤ c.1) →
      List.Pairwise (fun c d : Int × Int => c.1 ≤ d.1) completions →
      (applyCompletions completions h0).length ≤ 20 ∧
      List.Pairwise (fun r s => s.dateISO ≤ r.dateISO) (applyCompletions completions h0) := by
  intro completions
  induction completions with
  | nil => intro h0 hlen hsort _ _; exact ⟨hlen, hsort⟩
  | cons c rest ih =>
    intro h0 hlen hsort hle hmono
    have hlen1 : (histUpdate c.1 c.2 h0).length ≤ 20 := by
      simp only [histUpdate, List.length_take, List.length_cons]
      omega
    have hsort1 : List.Pairwise (fun r s => s.dateISO ≤ r.dateISO) (histUpdate c.1 c.2 h0) := by
      unfold histUpdate
      apply List.Pairwise.sublist (List.take_sublist _ _)
      rw [List.pairwise_cons]
      exact ⟨fun r hr => hle r hr c (List.mem_cons_self _ _), hsort⟩
    have hle1 : ∀ r ∈ histUpdate c.1 c.2 h0, ∀ d ∈ rest, r.dateISO ≤ d.1 := by
      intro r hr d hd
      have hr2 := (List.take_sublist _ _).subset hr
      rcases List.mem_cons.mp hr2 with rfl | hr3
      · exact (List.pairwise_cons.mp hmono).1 d hd
      · exact hle r hr3 d (List.mem_cons_of_mem _ hd)
    exact ih (histUpdate c.1 c.2 h0) hlen1 hsort1 hle1 (List.pairwise_cons.mp hmono).2

/-- C8: starting from a history of at most 20 records sorted newest-first,
    completing the task any number of times on non-decreasing dates keeps the
    history at most 20 long and sorted newest-first; each single completion is
    exactly a prepend of today's record followed by truncation to 20, which
    keeps the surviving old entries in their order. -/
theorem history_spec (h0 : List HRec) (completions : List (Int × Int))
    (hlen : h0.length ≤ 20)
    (hsort : List.Pairwise (fun r s => s.dateISO ≤ r.dateISO) h0)
    (hle : ∀ r ∈ h0, ∀ c ∈ completions, r.dateISO ≤ c.1)
    (hmono : List.Pairwise (fun c d : Int × Int => c.1 ≤ d.1) completions) :
    (applyCompletions completions h0).length ≤ 20 ∧
    List.Pairwise (fun r s => s.dateISO ≤ r.dateISO) (applyCompletions completions h0) ∧
    (∀ d a h, histUpdate d a h = ⟨d, a⟩ :: h.take 19) := by
  rcases applyCompletions_spec completions h0 hlen hsort hle hmono with ⟨h1, h2⟩
  exact ⟨h1, h2, fun d a h => rfl⟩

/-- Witness for C8: empty initial history and two completions on days 0
    and 1. -/
theorem history_spec_witness :
    ([] : List HRec).length ≤ 20 ∧
    List.Pairwise (fun r s => s.dateISO ≤ r.dateISO) ([] : List HRec) ∧
    (∀ r ∈ ([] : List HRec), ∀ c ∈ [((0:Int), (10:Int)), (1, 5)], r.dateISO ≤ c.1) ∧
    List.Pairwise (fun c d : Int × Int => c.1 ≤ d.1) [((0:Int), (10:Int)), (1, 5)] ∧
    ((applyCompletions [((0:Int), (10:Int)), (1, 5)] []).length ≤ 20 ∧
     List.Pairwise (fun r s => s.dateISO ≤ r.dateISO)
       (applyCompletions [((0:Int), (10:Int)), (1, 5)] []) ∧
     (∀ d a h, histUpdate d a h = ⟨d, a⟩ :: h.take 19)) :=
  ⟨by decide, by decide, by simp, by decide,
   history_spec [] [((0:Int), (10:Int)), (1, 5)] (by decide) (by decide) (by simp) (by decide)⟩

/- Facts about backup and restore (claims C7 and C9). -/

/-- C7 amended: restore accepts the legacy shape (array `tasks` field, plan
    reset to null) and the v2 shape (`state.tasks` an array, `todayPlan`
    defaulting to null when missing); when the task list is missing or not an
    array in both positions the restore fails and the previous state is
    returned untouched — but the elements of the task array are not validated
    against the task shape. -/
theorem restore_shapes (parsed : JVal) (prev : AppStateJ) :
    (∀ xs, asArr (jGet parsed "tasks") = some xs →
        restoreFromFile parsed prev = (⟨xs, JVal.null⟩, true)) ∧
    (asArr (jGet parsed "tasks") = none →
      ∀ st xs, jGet parsed "state" = some st → asArr (jGet st "tasks") = some xs →
        restoreFromFile parsed prev = (⟨xs, (jGet st "todayPlan").getD JVal.null⟩, true)) ∧
    (asArr (jGet parsed "tasks") = none →
      (∀ st, jGet parsed "state" = some st → asArr (jGet st "tasks") = none) →
      restoreFromFile parsed prev = (prev, false)) := by
  refine ⟨?_, ?_, ?_⟩
  · intro xs h
    unfold restoreFromFile
    rw [h]
  · intro h st xs hst hxs
    unfold restoreFromFile
    rw [h]
    dsimp only
    rw [hst]
    dsimp only
    rw [hxs]
  · intro h hst
    unfold restoreFromFile
    rw [h]
    dsimp only
    rcases hs : jGet parsed "state" with _ | st
    · rfl
    · dsimp only
      rw [hst st hs]

/-- Witness for C7's amended statement at a concrete legacy payload. -/
theorem restore_shapes_witness :
    ((∀ xs, asArr (jGet (JVal.obj [("tasks", JVal.arr [])]) "tasks") = some xs →
        restoreFromFile (JVal.obj [("tasks", JVal.arr [])]) ⟨[], JVal.null⟩
          = (⟨xs, JVal.null⟩, true)) ∧
     (asArr (jGet (JVal.obj [("tasks", JVal.arr [])]) "tasks") = none →
      ∀ st xs, jGet (JVal.obj [("tasks", JVal.arr [])]) "state" = some st →
        asArr (jGet st "tasks") = some xs →
        restoreFromFile (JVal.obj [("tasks", JVal.arr [])]) ⟨[], JVal.null⟩
          = (⟨xs, (jGet st "todayPlan").getD JVal.null⟩, true)) ∧
     (asArr (jGet (JVal.obj [("tasks", JVal.arr [])]) "tasks") = none →
      (∀ st, jGet (JVal.obj [("tasks", JVal.arr [])]) "state" = some st →
        asArr (jGet st "tasks") = none) →
      restoreFromFile (JVal.obj [("tasks", JVal.arr [])]) ⟨[], JVal.null⟩
        = (⟨[], JVal.null⟩, false))) ∧
    restoreFromFile (JVal.obj [("tasks", JVal.arr [])]) ⟨[], JVal.null⟩
      = (⟨[], JVal.null⟩, true) :=
  ⟨restore_shapes (JVal.obj [("tasks", JVal.arr [])]) ⟨[], JVal.null⟩, rfl⟩

/-- The C7 counterexample payload: a `tasks` array whose single element is the
    bare string `"x"`, which is not a task-shaped record. -/
def cexPayload : JVal := JVal.obj [("tasks", JVal.arr [JVal.str "x"])]

/-- Counterexample for C7 as stated: a task list that is an array but not a
    sequence of task-shaped records is accepted (restore succeeds and replaces
    the state) instead of failing and leaving the state untouched. -/
theorem restore_shapes_cex :
    restoreFromFile cexPayload ⟨[], JVal.null⟩ = (⟨[JVal.str "x"], JVal.null⟩, true) ∧
    isTaskShaped (JVal.str "x") = false ∧
    (⟨[], JVal.null⟩ : AppStateJ).tasks ≠ [JVal.str "x"] := by
  refine ⟨rfl, rfl, ?_⟩
  intro h
  exact List.noConfusion h

/-- C9: exporting the current v2 snapshot of any state and restoring it
    reproduces exactly that state (same task list, same plan), regardless of
    the previous state. -/
theorem backup_restore_roundtrip (exportedAtISO : String) (s prev : AppStateJ) :
    restoreFromFile (backupNow exportedAtISO s) prev = (s, true) := rfl

end HQ
